import Mathlib

/-!
# Background animator (`web/static/js/three_bg.js`)

A shallow embedding of the particle-background script.  JavaScript numbers are
IEEE-754 binary64 values; they are modelled as exact rationals together with the
two infinities and NaN, and every arithmetic operator rounds its exact result to
the nearest representable value, ties to even.  `Float32Array` stores round once
more, to binary32.  The two zeros are identified (they are `==` in JavaScript, and
the only divisors of this script, `window.innerWidth` and `window.innerHeight`,
are integers, so a zero divisor is `+0`).

The callbacks of the script are functions from a state to a new state and the
list of effects they performed, in program order.  What the script reads from the
page (the mount element, the viewport, the style value, `Math.random`, the
clock) is an argument.  The graphics library is outside the repository: its
objects are records of the values the script gives them.
-/

namespace ThreeBg

/-! ## Numbers -/

/-- A JavaScript number: a finite value, `Infinity`, `-Infinity` or `NaN`. -/
inductive JSNum where
  | fin (q : ℚ)
  | posInf
  | negInf
  | nan
  deriving DecidableEq, Repr

/-- A binary floating-point format: precision in bits, smallest and largest
normal exponent. -/
structure Format where
  prec : ℕ
  emin : ℤ
  emax : ℤ
  deriving DecidableEq, Repr

/-- IEEE-754 binary64, the format of every JavaScript number. -/
def binary64 : Format := ⟨53, -1022, 1023⟩

/-- IEEE-754 binary32, the element format of `Float32Array`. -/
def binary32 : Format := ⟨24, -126, 127⟩

/-- Round a rational to the nearest integer, ties to the even one. -/
def rne (x : ℚ) : ℤ :=
  let f := ⌊x⌋
  let r := x - f
  if r < 1 / 2 then f
  else if 1 / 2 < r then f + 1
  else if f % 2 = 0 then f else f + 1

/-- Helper of `blog2`: at most `fuel` halvings. -/
def blog2Fuel : ℕ → ℕ → ℕ
  | 0, _ => 0
  | fuel + 1, n => if n < 2 then 0 else blog2Fuel fuel (n / 2) + 1

/-- The position of the leading bit of a natural number: `⌊log₂ n⌋` for `0 < n`. -/
def blog2 (n : ℕ) : ℕ := blog2Fuel n n

/-- The binary exponent `⌊log₂ |q|⌋` of a non-zero rational. -/
def ilog2 (q : ℚ) : ℤ :=
  let k : ℤ := (blog2 q.num.natAbs : ℤ) - (blog2 q.den : ℤ)
  if (2 : ℚ) ^ k ≤ |q| then k else k - 1

/-- The spacing of representable values around `q`: `2 ^ (max e emin - (p - 1))`
with `e` the binary exponent of `q`. -/
def quantum (f : Format) (q : ℚ) : ℚ :=
  (2 : ℚ) ^ (max (ilog2 q) f.emin - ((f.prec : ℤ) - 1))

/-- Round an exact finite result into the format `f`: nearest representable value,
ties to even, gradual underflow, overflow to an infinity. -/
def roundTo (f : Format) (q : ℚ) : JSNum :=
  if q = 0 then .fin 0
  else
    let r : ℚ := (rne (q / quantum f q) : ℚ) * quantum f q
    if (2 : ℚ) ^ (f.emax + 1) ≤ |r| then (if 0 < q then .posInf else .negInf)
    else .fin r

/-- Rounding of a double-precision operation result. -/
def roundD (q : ℚ) : JSNum := roundTo binary64 q

/-- The value a double takes when stored into a `Float32Array` (`Math.fround`). -/
def fround : JSNum → JSNum
  | .fin q => roundTo binary32 q
  | x => x

/-- A value is a double when rounding leaves it unchanged. -/
def IsDouble : JSNum → Prop
  | .fin q => roundD q = .fin q
  | _ => True

instance : DecidablePred IsDouble := fun x => by
  cases x <;> unfold IsDouble <;> infer_instance

/-- The JavaScript `+` on numbers. -/
def add : JSNum → JSNum → JSNum
  | .fin a, .fin b => roundD (a + b)
  | .nan, _ => .nan
  | _, .nan => .nan
  | .posInf, .negInf => .nan
  | .negInf, .posInf => .nan
  | .posInf, _ => .posInf
  | .negInf, _ => .negInf
  | _, .posInf => .posInf
  | _, .negInf => .negInf

/-- Unary minus. -/
def neg : JSNum → JSNum
  | .fin a => .fin (-a)
  | .posInf => .negInf
  | .negInf => .posInf
  | .nan => .nan

/-- The JavaScript binary `-`. -/
def sub (a b : JSNum) : JSNum := add a (neg b)

/-- Sign of a number as `1`, `0`, `-1`; `none` for NaN. -/
def sgn : JSNum → Option ℤ
  | .fin q => some (if 0 < q then 1 else if q < 0 then -1 else 0)
  | .posInf => some 1
  | .negInf => some (-1)
  | .nan => none

/-- The infinity of a given non-zero sign. -/
def infOf (s : ℤ) : JSNum := if 0 < s then .posInf else .negInf

/-- The JavaScript `*`. -/
def mul : JSNum → JSNum → JSNum
  | .fin a, .fin b => roundD (a * b)
  | a, b =>
    match sgn a, sgn b with
    | some sa, some sb => if sa * sb = 0 then .nan else infOf (sa * sb)
    | _, _ => .nan

/-- The JavaScript `/`.  A zero divisor counts as `+0`. -/
def div : JSNum → JSNum → JSNum
  | .fin a, .fin b =>
    if b = 0 then (if a = 0 then .nan else if 0 < a then .posInf else .negInf)
    else roundD (a / b)
  | .nan, _ => .nan
  | _, .nan => .nan
  | .fin _, _ => .fin 0
  | .posInf, .fin b => if 0 ≤ b then .posInf else .negInf
  | .negInf, .fin b => if 0 ≤ b then .negInf else .posInf
  | _, _ => .nan

/-- The literal `0.5`. -/
def lit_0_5 : JSNum := roundD (1 / 2)

/-- The literal `0.05`. -/
def lit_0_05 : JSNum := roundD (1 / 20)

/-- The literal `15`. -/
def lit_15 : JSNum := roundD 15

/-- The literal `0.1`. -/
def lit_0_1 : JSNum := roundD (1 / 10)

/-- The literal `0.02`. -/
def lit_0_02 : JSNum := roundD (1 / 50)

/-- The literal `0.8`. -/
def lit_0_8 : JSNum := roundD (4 / 5)

/-- A number is finite and lies in the closed interval `[lo, hi]`. -/
def InRange (lo hi : ℚ) : JSNum → Prop
  | .fin q => lo ≤ q ∧ q ≤ hi
  | _ => False

/-- A number is finite and lies in the half-open interval `[lo, hi)`. -/
def InHalfOpen (lo hi : ℚ) : JSNum → Prop
  | .fin q => lo ≤ q ∧ q < hi
  | _ => False

instance (lo hi : ℚ) : DecidablePred (InRange lo hi) := fun x => by
  cases x <;> unfold InRange <;> infer_instance

instance (lo hi : ℚ) : DecidablePred (InHalfOpen lo hi) := fun x => by
  cases x <;> unfold InHalfOpen <;> infer_instance

/-! ## Strings -/

/-- The characters `String.prototype.trim` removes: ECMAScript `WhiteSpace` and
`LineTerminator`. -/
def isWhiteSpace (c : Char) : Bool :=
  let n := c.toNat
  n = 0x09 || n = 0x0A || n = 0x0B || n = 0x0C || n = 0x0D || n = 0x20 || n = 0xA0
    || n = 0x1680 || (0x2000 ≤ n && n ≤ 0x200A) || n = 0x2028 || n = 0x2029
    || n = 0x202F || n = 0x205F || n = 0x3000 || n = 0xFEFF

/-- Remove leading white space. -/
def trimStart (l : List Char) : List Char := l.dropWhile isWhiteSpace

/-- Remove leading and trailing white space from a list of characters. -/
def jsTrimList (l : List Char) : List Char := (trimStart (trimStart l).reverse).reverse

/-- The method `String.prototype.trim`. -/
def jsTrim (s : String) : String := ⟨jsTrimList s.data⟩

/-- The colour handed to the material:
`style.getPropertyValue('--accent-primary').trim() || '#3b82f6'`.
The argument is what `getPropertyValue` returned (the empty string when the
property is unset); a string is falsy exactly when it is empty. -/
def accentColor (propertyValue : String) : String :=
  let t := jsTrim propertyValue
  if t = "" then "#3b82f6" else t

/-! ## Scene objects -/

/-- The Euler angles `particlesMesh.rotation`. -/
structure Euler where
  x : JSNum
  y : JSNum
  z : JSNum
  deriving DecidableEq, Repr

/-- The parameters a projection matrix is computed from. -/
structure Projection where
  fov : JSNum
  aspect : JSNum
  near : JSNum
  far : JSNum
  deriving DecidableEq, Repr

/-- The perspective camera: its parameters, the projection last computed by
`updateProjectionMatrix`, and `position.z`. -/
structure Camera where
  fov : JSNum
  aspect : JSNum
  near : JSNum
  far : JSNum
  projection : Projection
  positionZ : JSNum
  deriving DecidableEq, Repr

/-- The renderer: construction flags, the logical size given to `setSize`, the
pixel ratio given to `setPixelRatio`, and the size of the drawing surface (the
values of `canvas.width` and `canvas.height`). -/
structure Renderer where
  alpha : Bool
  antialias : Bool
  width : JSNum
  height : JSNum
  pixelRatio : JSNum
  canvasWidth : JSNum
  canvasHeight : JSNum
  deriving DecidableEq, Repr

/-- The function `Math.floor`. -/
def mathFloor : JSNum → JSNum
  | .fin q => .fin (⌊q⌋ : ℚ)
  | x => x

/-- The renderer as the library constructs it: pixel ratio 1 and the size of a
fresh canvas, 300 x 150. -/
def newRenderer (alpha antialias : Bool) : Renderer :=
  { alpha := alpha, antialias := antialias
    width := .fin 300, height := .fin 150
    pixelRatio := .fin 1
    canvasWidth := .fin 300, canvasHeight := .fin 150 }

/-- The library method `renderer.setSize(width, height)`: it keeps the logical size
and gives the drawing surface the size `Math.floor(width * pixelRatio)` by
`Math.floor(height * pixelRatio)`. -/
def setSize (r : Renderer) (width height : JSNum) : Renderer :=
  { r with
    width := width
    height := height
    canvasWidth := mathFloor (mul width r.pixelRatio)
    canvasHeight := mathFloor (mul height r.pixelRatio) }

/-- The library method `renderer.setPixelRatio(value)`: it keeps the ratio and sizes
the drawing surface again, from the logical size. -/
def setPixelRatio (r : Renderer) (value : JSNum) : Renderer :=
  setSize { r with pixelRatio := value } r.width r.height

/-- The points material. -/
structure Material where
  size : JSNum
  color : String
  transparent : Bool
  opacity : JSNum
  deriving DecidableEq, Repr

/-- Everything the callbacks of the script read or write: the camera, the
renderer, the position buffer (`posArray`, a `Float32Array`) with its item size,
the material, the rotation of the cloud, and the pointer state. -/
structure State where
  camera : Camera
  renderer : Renderer
  posArray : List JSNum
  itemSize : ℕ
  material : Material
  rotation : Euler
  mouseX : JSNum
  mouseY : JSNum
  deriving DecidableEq, Repr

/-- The effects of the script: objects it constructs, calls and writes that change
the page or the scene, and what it registers with the host.  Reads leave no
entry. -/
inductive Action where
  | newScene
  | newPerspectiveCamera (fov aspect near far : JSNum)
  | newWebGLRenderer (alpha antialias : Bool)
  | setSize (width height : JSNum)
  | setPixelRatio (ratio : JSNum)
  | appendChild
  | newBufferGeometry
  | setAttribute (name : String) (itemSize : ℕ)
  | newPointsMaterial (m : Material)
  | newPoints
  | sceneAdd
  | setCameraPositionZ (z : JSNum)
  | addEventListener (type : String)
  | newClock
  | requestAnimationFrame
  | setRotationX (v : JSNum)
  | setRotationY (v : JSNum)
  | render
  | setAspect (v : JSNum)
  | updateProjectionMatrix
  deriving DecidableEq, Repr

/-- What the script reads from its surroundings at start-up. -/
structure Env where
  /-- whether `document.getElementById('canvas-container')` finds an element -/
  container : Bool
  innerWidth : JSNum
  innerHeight : JSNum
  devicePixelRatio : JSNum
  /-- the result of `getPropertyValue('--accent-primary')` -/
  accentPrimary : String
  /-- the result of the `k`-th call of `Math.random()` -/
  random : ℕ → JSNum
  /-- the clock reading of the first frame -/
  elapsed0 : JSNum

/-! ## The script -/

/-- The constant `particlesCount`. -/
def particlesCount : ℕ := 700

/-- The value stored by `posArray[i] = (Math.random() - 0.5) * 15`: the double
result of the expression, rounded to binary32 by the typed array. -/
def coordinate (u : JSNum) : JSNum := fround (mul (sub u lit_0_5) lit_15)

/-- The generation loop over a zero-filled `new Float32Array(n)`:
`for (let i = 0; i < n; i++) posArray[i] = (Math.random() - 0.5) * 15`. -/
def generate (random : ℕ → JSNum) (n : ℕ) : List JSNum :=
  (List.range n).foldl (fun arr i => arr.set i (coordinate (random i)))
    (List.replicate n (.fin 0))

/-- The number of points of the geometry: `count = array.length / itemSize`. -/
def pointCount (s : State) : ℕ := s.posArray.length / s.itemSize

/-- The `mousemove` listener, run with the viewport size of the moment. -/
def mousemove (s : State) (innerWidth innerHeight clientX clientY : JSNum) :
    State × List Action :=
  ({ s with
      mouseX := sub (div clientX innerWidth) lit_0_5
      mouseY := sub (div clientY innerHeight) lit_0_5 }, [])

/-- One call of `animate` with the clock reading `elapsedTime`. -/
def animate (s : State) (elapsedTime : JSNum) : State × List Action :=
  -- particlesMesh.rotation.y = elapsedTime * 0.05
  let y1 := mul elapsedTime lit_0_05
  -- particlesMesh.rotation.x = mouseY * 0.5
  let x1 := mul s.mouseY lit_0_5
  -- particlesMesh.rotation.y += mouseX * 0.5
  let y2 := add y1 (mul s.mouseX lit_0_5)
  ({ s with rotation := { s.rotation with x := x1, y := y2 } },
    [.requestAnimationFrame, .setRotationY y1, .setRotationX x1, .setRotationY y2, .render])

/-- The `resize` listener, run with the new viewport size. -/
def resize (s : State) (innerWidth innerHeight : JSNum) : State × List Action :=
  let aspect := div innerWidth innerHeight
  let cam : Camera := { s.camera with aspect := aspect }
  let cam : Camera :=
    { cam with projection := ⟨cam.fov, cam.aspect, cam.near, cam.far⟩ }
  ({ s with
      camera := cam
      renderer := setSize s.renderer innerWidth innerHeight },
    [.setAspect aspect, .updateProjectionMatrix, .setSize innerWidth innerHeight])

/-- The state built by the `DOMContentLoaded` callback before its first call of
`animate`. -/
def setup (env : Env) : State :=
  let aspect := div env.innerWidth env.innerHeight
  { camera :=
      { fov := .fin 75, aspect := aspect, near := lit_0_1, far := .fin 1000
        projection := ⟨.fin 75, aspect, lit_0_1, .fin 1000⟩
        positionZ := .fin 3 }
    renderer :=
      setPixelRatio (setSize (newRenderer true true) env.innerWidth env.innerHeight)
        env.devicePixelRatio
    posArray := generate env.random (particlesCount * 3)
    itemSize := 3
    material :=
      { size := lit_0_02, color := accentColor env.accentPrimary
        transparent := true, opacity := lit_0_8 }
    rotation := ⟨.fin 0, .fin 0, .fin 0⟩
    mouseX := .fin 0
    mouseY := .fin 0 }

/-- The `DOMContentLoaded` callback: the state it leaves behind (none when it
returns early) and the actions it performed. -/
def init (env : Env) : Option State × List Action :=
  if !env.container then (none, [])
  else
    let s := setup env
    let first := animate s env.elapsed0
    (some first.1,
      [.newScene,
        .newPerspectiveCamera s.camera.fov s.camera.aspect s.camera.near s.camera.far,
        .newWebGLRenderer true true,
        .setSize env.innerWidth env.innerHeight,
        .setPixelRatio env.devicePixelRatio,
        .appendChild,
        .newBufferGeometry,
        .setAttribute "position" 3,
        .newPointsMaterial s.material,
        .newPoints,
        .sceneAdd,
        .setCameraPositionZ (.fin 3),
        .addEventListener "mousemove",
        .newClock]
      ++ first.2 ++ [.addEventListener "resize"])

/-- What can happen after start-up: a frame at a clock reading, a pointer move
in a viewport, a resize to a viewport. -/
inductive Event where
  | frame (elapsedTime : JSNum)
  | mousemove (innerWidth innerHeight clientX clientY : JSNum)
  | resize (innerWidth innerHeight : JSNum)
  deriving DecidableEq, Repr

/-- One step of the running page. -/
def step (s : State) : Event → State × List Action
  | .frame t => animate s t
  | .mousemove w h x y => mousemove s w h x y
  | .resize w h => resize s w h

/-- The state after a sequence of events. -/
def run (s : State) (evs : List Event) : State :=
  evs.foldl (fun st e => (step st e).1) s

/-- A sample environment: a 1920 x 1080 viewport, the property value as written
in a style sheet, every random sample `0.25`. -/
def sampleEnv : Env :=
  { container := true
    innerWidth := .fin 1920
    innerHeight := .fin 1080
    devicePixelRatio := .fin 1
    accentPrimary := "#ff0000"
    random := fun _ => .fin (1 / 4)
    elapsed0 := .fin 0 }

/-- The state of the sample page before its first frame. -/
def sampleState : State := setup sampleEnv

/-- The sample environment with every random sample `1 - 2^-30`. -/
def edgeEnv : Env := { sampleEnv with random := fun _ => .fin (1 - 1 / 2 ^ 30) }

/-- The sample environment with the property value as old engines serialise it,
with the space that follows the colon. -/
def spacedEnv : Env := { sampleEnv with accentPrimary := " #ff0000" }

/-- The sample environment on a page without the mount element. -/
def bareEnv : Env := { sampleEnv with container := false }

/-- A 1366 x 768 viewport on a display of device pixel ratio 2. -/
def retinaEnv : Env :=
  { sampleEnv with
    innerWidth := .fin 1366
    innerHeight := .fin 768
    devicePixelRatio := .fin 2 }

/-! ## Rounding -/

theorem blog2Fuel_spec : ∀ (fuel n : ℕ), 0 < n → n ≤ fuel →
    2 ^ blog2Fuel fuel n ≤ n ∧ n < 2 ^ (blog2Fuel fuel n + 1) := by
  intro fuel
  induction fuel with
  | zero => intro n h1 h2; omega
  | succ m ih =>
    intro n h1 h2
    unfold blog2Fuel
    split_ifs with h
    · constructor <;> simp <;> omega
    · have hn : 0 < n / 2 := by omega
      have hm : n / 2 ≤ m := by omega
      obtain ⟨h3, h4⟩ := ih (n / 2) hn hm
      generalize blog2Fuel m (n / 2) = k at h3 h4 ⊢
      have e1 : 2 ^ (k + 1) = 2 * 2 ^ k := by ring
      have e2 : 2 ^ (k + 1 + 1) = 2 * (2 * 2 ^ k) := by ring
      rw [e1] at h4
      rw [e1, e2]
      generalize 2 ^ k = a at h3 h4 ⊢
      constructor <;> omega

theorem blog2_spec (n : ℕ) (h : 0 < n) : 2 ^ blog2 n ≤ n ∧ n < 2 ^ (blog2 n + 1) :=
  blog2Fuel_spec n n h le_rfl

theorem abs_eq_natAbs_div_den (q : ℚ) : |q| = (q.num.natAbs : ℚ) / (q.den : ℚ) := by
  conv_lhs => rw [← Rat.num_div_den q]
  rw [abs_div, Nat.abs_cast, Nat.cast_natAbs, Int.cast_abs]

theorem two_zpow_ilog2_le (q : ℚ) (hq : q ≠ 0) : (2 : ℚ) ^ ilog2 q ≤ |q| := by
  unfold ilog2
  simp only
  split_ifs with h
  · exact h
  · have hn : 0 < q.num.natAbs := Int.natAbs_pos.mpr (Rat.num_ne_zero.mpr hq)
    obtain ⟨h1, _⟩ := blog2_spec _ hn
    obtain ⟨_, h2⟩ := blog2_spec _ q.den_pos
    rw [abs_eq_natAbs_div_den]
    generalize blog2 q.num.natAbs = a at h1
    generalize blog2 q.den = b at h2
    have e : (2 : ℚ) ^ ((a : ℤ) - (b : ℤ) - 1) = (2 : ℚ) ^ a / (2 : ℚ) ^ (b + 1) := by
      rw [show (a : ℤ) - (b : ℤ) - 1 = (a : ℤ) - ((b + 1 : ℕ) : ℤ) by push_cast; ring]
      rw [zpow_sub₀ (by norm_num), zpow_natCast, zpow_natCast]
    rw [e]
    have h1q : (2 : ℚ) ^ a ≤ (q.num.natAbs : ℚ) := by exact_mod_cast h1
    have h2q : (q.den : ℚ) ≤ (2 : ℚ) ^ (b + 1) := by exact_mod_cast h2.le
    have hd : (0 : ℚ) < q.den := by exact_mod_cast q.den_pos
    exact div_le_div₀ (by positivity) h1q hd h2q

theorem lt_two_zpow_ilog2_succ (q : ℚ) (hq : q ≠ 0) : |q| < (2 : ℚ) ^ (ilog2 q + 1) := by
  unfold ilog2
  simp only
  split_ifs with h
  · have hn : 0 < q.num.natAbs := Int.natAbs_pos.mpr (Rat.num_ne_zero.mpr hq)
    obtain ⟨_, h1⟩ := blog2_spec _ hn
    obtain ⟨h2, _⟩ := blog2_spec _ q.den_pos
    rw [abs_eq_natAbs_div_den]
    generalize blog2 q.num.natAbs = a at h1
    generalize blog2 q.den = b at h2
    have e : (2 : ℚ) ^ ((a : ℤ) - (b : ℤ) + 1) = (2 : ℚ) ^ (a + 1) / (2 : ℚ) ^ b := by
      rw [show (a : ℤ) - (b : ℤ) + 1 = ((a + 1 : ℕ) : ℤ) - (b : ℤ) by push_cast; ring]
      rw [zpow_sub₀ (by norm_num), zpow_natCast, zpow_natCast]
    rw [e]
    have h1q : (q.num.natAbs : ℚ) < (2 : ℚ) ^ (a + 1) := by exact_mod_cast h1
    have h2q : (2 : ℚ) ^ b ≤ (q.den : ℚ) := by exact_mod_cast h2
    have hd : (0 : ℚ) < q.den := by exact_mod_cast q.den_pos
    exact div_lt_div₀ h1q h2q (by positivity) (by positivity)
  · simpa using lt_of_not_le h

theorem rne_le (x : ℚ) (B : ℤ) (h : x ≤ B) : rne x ≤ B := by
  unfold rne
  simp only
  have hf : ⌊x⌋ ≤ B := by exact_mod_cast (Int.floor_le x).trans h
  rcases lt_or_eq_of_le hf with hlt | heq
  · split_ifs <;> omega
  · have hx : x = B := le_antisymm h (by rw [← heq]; exact Int.floor_le x)
    have : x - (⌊x⌋ : ℚ) < 1 / 2 := by rw [heq, hx]; norm_num
    rw [if_pos this]; exact hf

theorem le_rne (x : ℚ) (B : ℤ) (h : (B : ℚ) ≤ x) : B ≤ rne x := by
  unfold rne
  simp only
  have hf : B ≤ ⌊x⌋ := Int.le_floor.mpr h
  split_ifs <;> omega

theorem quantum_pos (f : Format) (q : ℚ) : 0 < quantum f q := by
  unfold quantum; positivity

/-- The spacing around `q` divides every value `N * 2 ^ j` of the format that
bounds `q`. -/
theorem quantum_exp_le (f : Format) (q : ℚ) (N : ℕ) (j : ℤ) (hq0 : q ≠ 0)
    (hN : N < 2 ^ f.prec) (hj : f.emin - ((f.prec : ℤ) - 1) ≤ j)
    (hq : |q| ≤ (N : ℚ) * (2 : ℚ) ^ j) :
    max (ilog2 q) f.emin - ((f.prec : ℤ) - 1) ≤ j := by
  have h1 : (2 : ℚ) ^ ilog2 q < (2 : ℚ) ^ ((f.prec : ℤ) + j) := by
    calc (2 : ℚ) ^ ilog2 q ≤ |q| := two_zpow_ilog2_le q hq0
      _ ≤ (N : ℚ) * (2 : ℚ) ^ j := hq
      _ < (2 : ℚ) ^ f.prec * (2 : ℚ) ^ j := by
          apply mul_lt_mul_of_pos_right _ (by positivity)
          exact_mod_cast hN
      _ = (2 : ℚ) ^ ((f.prec : ℤ) + j) := by
          rw [zpow_add₀ (by norm_num), zpow_natCast]
  have h2 : ilog2 q < (f.prec : ℤ) + j := (zpow_lt_zpow_iff_right₀ (by norm_num)).mp h1
  have h3 : max (ilog2 q) f.emin ≤ j + ((f.prec : ℤ) - 1) := max_le (by omega) (by omega)
  omega

theorem roundTo_bounded (f : Format) (q : ℚ) (N : ℕ) (j : ℤ)
    (hN : N < 2 ^ f.prec) (hj : f.emin - ((f.prec : ℤ) - 1) ≤ j)
    (hmax : (N : ℚ) * (2 : ℚ) ^ j < (2 : ℚ) ^ (f.emax + 1))
    (hq : |q| ≤ (N : ℚ) * (2 : ℚ) ^ j) :
    ∃ r : ℚ, roundTo f q = .fin r ∧ |r| ≤ (N : ℚ) * (2 : ℚ) ^ j ∧
      (0 ≤ q → 0 ≤ r) ∧ (q ≤ 0 → r ≤ 0) := by
  by_cases hq0 : q = 0
  · subst hq0
    refine ⟨0, by simp [roundTo], ?_, fun _ => le_rfl, fun _ => le_rfl⟩
    simpa using hq
  · have ht := quantum_exp_le f q N j hq0 hN hj hq
    have hpos := quantum_pos f q
    set t : ℤ := max (ilog2 q) f.emin - ((f.prec : ℤ) - 1) with ht_def
    have hqt : quantum f q = (2 : ℚ) ^ t := rfl
    obtain ⟨d, hd⟩ : ∃ d : ℕ, j = t + d := ⟨(j - t).toNat, by omega⟩
    have hB : (((N * 2 ^ d : ℕ) : ℤ) : ℚ) * (2 : ℚ) ^ t = (N : ℚ) * (2 : ℚ) ^ j := by
      rw [hd, zpow_add₀ (by norm_num), zpow_natCast]; push_cast; ring
    set B : ℤ := ((N * 2 ^ d : ℕ) : ℤ) with hB_def
    have hx1 : q / quantum f q ≤ (B : ℚ) := by
      rw [div_le_iff₀ hpos, hqt, hB]; exact (le_abs_self q).trans hq
    have hx2 : ((-B : ℤ) : ℚ) ≤ q / quantum f q := by
      rw [le_div_iff₀ hpos, hqt]; push_cast; rw [neg_mul, hB]
      have := neg_abs_le q; linarith
    have hr1 := rne_le _ _ hx1
    have hr2 := le_rne _ _ hx2
    have habs : |(rne (q / quantum f q) : ℚ) * quantum f q| ≤ (N : ℚ) * (2 : ℚ) ^ j := by
      rw [abs_mul, abs_of_pos hpos, ← hB, ← hqt]
      apply mul_le_mul_of_nonneg_right _ hpos.le
      rw [abs_le]; constructor
      · exact_mod_cast hr2
      · exact_mod_cast hr1
    refine ⟨(rne (q / quantum f q) : ℚ) * quantum f q, ?_, habs, ?_, ?_⟩
    · unfold roundTo
      rw [if_neg hq0]
      simp only
      rw [if_neg (not_le.mpr (lt_of_le_of_lt habs hmax))]
    · intro h0
      have : (0 : ℤ) ≤ rne (q / quantum f q) :=
        le_rne _ 0 (by simpa using div_nonneg h0 hpos.le)
      have : (0 : ℚ) ≤ (rne (q / quantum f q) : ℚ) := by exact_mod_cast this
      positivity
    · intro h0
      have : rne (q / quantum f q) ≤ (0 : ℤ) :=
        rne_le _ 0 (by simpa using div_nonpos_of_nonpos_of_nonneg h0 hpos.le)
      have : (rne (q / quantum f q) : ℚ) ≤ 0 := by exact_mod_cast this
      exact mul_nonpos_of_nonpos_of_nonneg this hpos.le

theorem rne_error (x : ℚ) : |(rne x : ℚ) - x| ≤ 1 / 2 := by
  have hf := Int.floor_le x
  have hl := Int.lt_floor_add_one x
  unfold rne
  simp only
  split_ifs with h1 h2 h3 <;> push_cast <;> rw [abs_le] <;> constructor <;> linarith

/-- A finite rounding result is within half a spacing of the exact value. -/
theorem roundTo_error (f : Format) (q r : ℚ) (h : roundTo f q = .fin r) :
    |r - q| ≤ quantum f q / 2 := by
  have hpos := quantum_pos f q
  by_cases hq0 : q = 0
  · subst hq0
    simp only [roundTo, if_true, JSNum.fin.injEq] at h
    rw [← h]
    simp only [sub_zero, abs_zero]
    positivity
  · unfold roundTo at h
    rw [if_neg hq0] at h
    simp only at h
    split_ifs at h with h1 h2
    simp only [JSNum.fin.injEq] at h
    have e : r - q = ((rne (q / quantum f q) : ℚ) - q / quantum f q) * quantum f q := by
      rw [← h]; field_simp
    rw [e, abs_mul, abs_of_pos hpos]
    have := rne_error (q / quantum f q)
    nlinarith

theorem lit_0_05_eq : lit_0_05 = .fin (3602879701896397 / 2 ^ 56) := by decide!

theorem add_eq_fin (a b : JSNum) (y : ℚ) (h : add a b = .fin y) :
    ∃ p q : ℚ, a = .fin p ∧ b = .fin q ∧ roundD (p + q) = .fin y := by
  cases a <;> cases b <;> simp [add] at h ⊢
  exact h

/-- The value `rotation.y` of a frame is within half a spacing of each of its two
rounded operations of the exact `t * c + m`, where `c` is the double `0.05` and `m`
the double `mouseX * 0.5`. -/
theorem frame_error (t : ℚ) (mx : JSNum) (y : ℚ)
    (h : add (mul (.fin t) lit_0_05) (mul mx lit_0_5) = .fin y) :
    ∃ a m : ℚ, mul (.fin t) lit_0_05 = .fin a ∧ mul mx lit_0_5 = .fin m ∧
      |y - (t * (3602879701896397 / 2 ^ 56) + m)| ≤
        quantum binary64 (t * (3602879701896397 / 2 ^ 56)) / 2
          + quantum binary64 (a + m) / 2 := by
  obtain ⟨a, m, ha, hm, hy⟩ := add_eq_fin _ _ _ h
  refine ⟨a, m, ha, hm, ?_⟩
  have ha2 : roundTo binary64 (t * (3602879701896397 / 2 ^ 56)) = .fin a := by
    rw [lit_0_05_eq] at ha; exact ha
  have e1 := roundTo_error binary64 _ _ ha2
  have e2 := roundTo_error binary64 _ _ hy
  rw [abs_le] at e1 e2 ⊢
  constructor <;> linarith [e1.1, e1.2, e2.1, e2.2]

theorem lit_0_5_eq : lit_0_5 = .fin (1 / 2) := by decide!

theorem lit_15_eq : lit_15 = .fin 15 := by decide!

/-- A double operation whose exact result lies in `[-1, 1]` returns a value in
`[-1, 1]` of the same sign. -/
theorem roundD_unit (q : ℚ) (hq : |q| ≤ 1) :
    ∃ r : ℚ, roundD q = .fin r ∧ |r| ≤ 1 ∧ (0 ≤ q → 0 ≤ r) := by
  obtain ⟨r, h1, h2, h3, _⟩ := roundTo_bounded binary64 q 1 0 (by norm_num [binary64])
    (by norm_num [binary64]) (by norm_num [binary64]) (by simpa using hq)
  exact ⟨r, h1, by simpa using h2, h3⟩

/-- A double operation whose exact result lies in `[-1/2, 1/2]` returns a value in
`[-1/2, 1/2]`. -/
theorem roundD_half (q : ℚ) (hq : |q| ≤ 1 / 2) :
    ∃ r : ℚ, roundD q = .fin r ∧ |r| ≤ 1 / 2 := by
  obtain ⟨r, h1, h2, _, _⟩ := roundTo_bounded binary64 q 1 (-1) (by norm_num [binary64])
    (by norm_num [binary64]) (by norm_num [binary64]) (by norm_num; linarith)
  exact ⟨r, h1, by norm_num at h2; linarith⟩

/-- A double operation whose exact result lies in `[-7.5, 7.5]` returns a value in
`[-7.5, 7.5]`. -/
theorem roundD_15_2 (q : ℚ) (hq : |q| ≤ 15 / 2) :
    ∃ r : ℚ, roundD q = .fin r ∧ |r| ≤ 15 / 2 := by
  obtain ⟨r, h1, h2, _, _⟩ := roundTo_bounded binary64 q 15 (-1) (by norm_num [binary64])
    (by norm_num [binary64]) (by norm_num [binary64]) (by norm_num; linarith)
  exact ⟨r, h1, by norm_num at h2; linarith⟩

/-- Storing a double of `[-7.5, 7.5]` into a `Float32Array` keeps it in
`[-7.5, 7.5]`. -/
theorem round32_15_2 (q : ℚ) (hq : |q| ≤ 15 / 2) :
    ∃ r : ℚ, roundTo binary32 q = .fin r ∧ |r| ≤ 15 / 2 := by
  obtain ⟨r, h1, h2, _, _⟩ := roundTo_bounded binary32 q 15 (-1) (by norm_num [binary32])
    (by norm_num [binary32]) (by norm_num [binary32]) (by norm_num; linarith)
  exact ⟨r, h1, by norm_num at h2; linarith⟩

/-- The stored coordinate of a sample of `[0, 1)` is finite and lies in
`[-7.5, 7.5]`. -/
theorem coordinate_inRange (u : ℚ) (h0 : 0 ≤ u) (h1 : u < 1) :
    InRange (-15 / 2) (15 / 2) (coordinate (.fin u)) := by
  obtain ⟨a, ha, hab⟩ := roundD_half (u + -(1 / 2)) (by rw [abs_le]; constructor <;> linarith)
  obtain ⟨b, hb, hbb⟩ := roundD_15_2 (a * 15) (by
    rw [abs_le] at hab ⊢; constructor <;> linarith [hab.1, hab.2])
  obtain ⟨c, hc, hcb⟩ := round32_15_2 b hbb
  have : coordinate (.fin u) = .fin c := by
    simp only [coordinate, sub, lit_0_5_eq, lit_15_eq, neg, add, ha, mul, hb, fround, hc]
  rw [this]
  rw [abs_le] at hcb
  exact ⟨by linarith [hcb.1], hcb.2⟩

/-- The pointer scalar computed from a client coordinate inside the viewport is
finite and lies in `[-1/2, 1/2]`. -/
theorem pointer_inRange (x w : ℚ) (hw : 0 < w) (h0 : 0 ≤ x) (h1 : x ≤ w) :
    InRange (-1 / 2) (1 / 2) (sub (div (.fin x) (.fin w)) lit_0_5) := by
  obtain ⟨a, ha, hab, hapos⟩ := roundD_unit (x / w) (by
    rw [abs_le]; constructor
    · have : 0 ≤ x / w := div_nonneg h0 hw.le
      linarith
    · exact (div_le_one hw).mpr h1)
  have ha0 : 0 ≤ a := hapos (div_nonneg h0 hw.le)
  rw [abs_le] at hab
  obtain ⟨b, hb, hbb⟩ := roundD_half (a + -(1 / 2)) (by
    rw [abs_le]; constructor <;> linarith [hab.2])
  have : sub (div (.fin x) (.fin w)) lit_0_5 = .fin b := by
    simp only [sub, div, if_neg hw.ne', ha, lit_0_5_eq, neg, add, hb]
  rw [this]
  rw [abs_le] at hbb
  exact ⟨by linarith [hbb.1], hbb.2⟩

/-! ### The generation loop -/

theorem generate_loop (random : ℕ → JSNum) (init : List JSNum) :
    ∀ k : ℕ, k ≤ init.length →
      ((List.range k).foldl (fun arr i => arr.set i (coordinate (random i))) init).length
          = init.length ∧
      ∀ i : ℕ, i < init.length →
        ((List.range k).foldl (fun arr i => arr.set i (coordinate (random i))) init)[i]? =
          if i < k then some (coordinate (random i)) else init[i]? := by
  intro k
  induction k with
  | zero => intro _; simp
  | succ k ih =>
    intro hk
    obtain ⟨hlen, hget⟩ := ih (by omega)
    rw [List.range_succ, List.foldl_append]
    simp only [List.foldl_cons, List.foldl_nil, List.length_set]
    refine ⟨hlen, fun i hi => ?_⟩
    rw [List.getElem?_set]
    by_cases hik : k = i
    · subst hik
      simp [hlen, hi]
    · rw [if_neg hik, hget i hi]
      by_cases h1 : i < k
      · simp [h1, Nat.lt_succ_of_lt h1]
      · have : ¬ i < k + 1 := by omega
        simp [h1, this]

theorem generate_length (random : ℕ → JSNum) (n : ℕ) : (generate random n).length = n := by
  have := (generate_loop random (List.replicate n (.fin 0)) n (by simp)).1
  simpa [generate] using this

theorem generate_getElem? (random : ℕ → JSNum) (n i : ℕ) (hi : i < n) :
    (generate random n)[i]? = some (coordinate (random i)) := by
  have := (generate_loop random (List.replicate n (.fin 0)) n (by simp)).2 i (by simpa using hi)
  simpa [generate, hi] using this

/-! ### `trim` -/

theorem trimStart_head (l : List Char) (c : Char) (h : (trimStart l).head? = some c) :
    isWhiteSpace c = false := by
  have := List.head?_dropWhile_not isWhiteSpace l
  unfold trimStart at h
  rw [h] at this
  simpa using this

theorem trimStart_of_head (l : List Char)
    (h : ∀ c, l.head? = some c → isWhiteSpace c = false) : trimStart l = l := by
  cases l with
  | nil => rfl
  | cons a t =>
    have := h a rfl
    simp [trimStart, List.dropWhile_cons, this]

theorem trimStart_of_all (l : List Char) (h : ∀ c ∈ l, isWhiteSpace c = true) :
    trimStart l = [] := by
  simpa [trimStart, List.dropWhile_eq_nil_iff] using h

/-- What `trim` returns: the input is the result between two runs of white space,
and the result neither starts nor ends with white space. -/
theorem jsTrimList_spec (l : List Char) :
    ∃ pre post : List Char, l = pre ++ jsTrimList l ++ post ∧
      (∀ c ∈ pre, isWhiteSpace c = true) ∧ (∀ c ∈ post, isWhiteSpace c = true) ∧
      (∀ c, (jsTrimList l).head? = some c → isWhiteSpace c = false) ∧
      (∀ c, (jsTrimList l).getLast? = some c → isWhiteSpace c = false) := by
  set m := trimStart l with hm
  have h1 : l = l.takeWhile isWhiteSpace ++ m := (List.takeWhile_append_dropWhile _ l).symm
  have h2 : m = jsTrimList l ++ (m.reverse.takeWhile isWhiteSpace).reverse := by
    have := (List.takeWhile_append_dropWhile isWhiteSpace m.reverse).symm
    have h3 := congrArg List.reverse this
    rw [List.reverse_reverse, List.reverse_append] at h3
    exact h3
  refine ⟨l.takeWhile isWhiteSpace, (m.reverse.takeWhile isWhiteSpace).reverse, ?_,
    fun c hc => List.mem_takeWhile_imp hc, fun c hc => ?_, fun c hc => ?_, fun c hc => ?_⟩
  · rw [List.append_assoc, ← h2]; exact h1
  · exact List.mem_takeWhile_imp (List.mem_reverse.mp hc)
  · cases hj : jsTrimList l with
    | nil => rw [hj] at hc; simp at hc
    | cons a t =>
      rw [hj] at hc h2
      simp only [List.head?_cons, Option.some.injEq] at hc
      subst hc
      exact trimStart_head l a (by rw [← hm, h2]; rfl)
  · unfold jsTrimList at hc
    rw [List.getLast?_reverse] at hc
    exact trimStart_head _ c hc

theorem jsTrimList_of_all (l : List Char) (h : ∀ c ∈ l, isWhiteSpace c = true) :
    jsTrimList l = [] := by
  unfold jsTrimList
  rw [trimStart_of_all l h]
  rfl

theorem jsTrimList_of_clean (l : List Char)
    (h1 : ∀ c, l.head? = some c → isWhiteSpace c = false)
    (h2 : ∀ c, l.getLast? = some c → isWhiteSpace c = false) : jsTrimList l = l := by
  unfold jsTrimList
  rw [trimStart_of_head l h1, trimStart_of_head l.reverse (by
    intro c hc; rw [List.head?_reverse] at hc; exact h2 c hc), List.reverse_reverse]

theorem accentColor_of_trim_ne (v : String) (h : jsTrim v ≠ "") :
    accentColor v = jsTrim v := by
  simp [accentColor, h]

theorem accentColor_of_trim_eq (v : String) (h : jsTrim v = "") :
    accentColor v = "#3b82f6" := by
  simp [accentColor, h]

/-! ### The drawing surface -/

theorem rne_intCast (z : ℤ) : rne (z : ℚ) = z := by
  unfold rne
  simp only [Int.floor_intCast, sub_self]
  norm_num

/-- A value `N * 2 ^ j` with `N` of at most `prec` bits, inside the exponent range,
is representable: rounding returns it. -/
theorem roundTo_exact (f : Format) (N : ℕ) (j : ℤ)
    (hN : N < 2 ^ f.prec) (hj : f.emin - ((f.prec : ℤ) - 1) ≤ j)
    (hmax : (N : ℚ) * (2 : ℚ) ^ j < (2 : ℚ) ^ (f.emax + 1)) :
    roundTo f ((N : ℚ) * (2 : ℚ) ^ j) = .fin ((N : ℚ) * (2 : ℚ) ^ j) := by
  by_cases hq0 : (N : ℚ) * (2 : ℚ) ^ j = 0
  · rw [hq0]; simp [roundTo]
  · have hnn : (0 : ℚ) ≤ (N : ℚ) * (2 : ℚ) ^ j := by positivity
    have ht := quantum_exp_le f _ N j hq0 hN hj (by rw [abs_of_nonneg hnn])
    have hpos := quantum_pos f ((N : ℚ) * (2 : ℚ) ^ j)
    have hqt : quantum f ((N : ℚ) * (2 : ℚ) ^ j)
        = (2 : ℚ) ^ (max (ilog2 ((N : ℚ) * (2 : ℚ) ^ j)) f.emin - ((f.prec : ℤ) - 1)) := rfl
    generalize max (ilog2 ((N : ℚ) * (2 : ℚ) ^ j)) f.emin - ((f.prec : ℤ) - 1) = t at ht hqt
    obtain ⟨d, hd⟩ : ∃ d : ℕ, j = t + d := ⟨(j - t).toNat, by omega⟩
    have hx : (N : ℚ) * (2 : ℚ) ^ j / quantum f ((N : ℚ) * (2 : ℚ) ^ j)
        = (((N * 2 ^ d : ℕ) : ℤ) : ℚ) := by
      rw [div_eq_iff hpos.ne', hqt, hd, zpow_add₀ (by norm_num), zpow_natCast]
      push_cast; ring
    have hr : (rne ((N : ℚ) * (2 : ℚ) ^ j / quantum f ((N : ℚ) * (2 : ℚ) ^ j)) : ℚ)
        * quantum f ((N : ℚ) * (2 : ℚ) ^ j) = (N : ℚ) * (2 : ℚ) ^ j := by
      rw [hx, rne_intCast, ← hx, div_mul_cancel₀ _ hpos.ne']
    unfold roundTo
    rw [if_neg hq0]
    simp only
    rw [hr, abs_of_nonneg hnn, if_neg (not_le.mpr hmax)]

/-- Every natural number below `2 ^ 53` is a double. -/
theorem roundD_natCast (n : ℕ) (h : n < 2 ^ 53) : roundD (n : ℚ) = .fin (n : ℚ) := by
  have hq : (n : ℚ) < 2 ^ 53 := by exact_mod_cast h
  have := roundTo_exact binary64 n 0 (by simpa [binary64] using h)
    (by norm_num [binary64]) (by
      simp only [zpow_zero, mul_one, binary64]
      calc (n : ℚ) < 2 ^ 53 := hq
        _ ≤ (2 : ℚ) ^ ((1023 : ℤ) + 1) := by norm_num)
  simpa [roundD] using this

/-- At pixel ratio 1 the drawing surface of a whole number of pixels is the logical
size. -/
theorem canvas_of_ratio_one (r : Renderer) (n : ℕ) (other : JSNum) (h : n < 2 ^ 53)
    (hr : r.pixelRatio = .fin 1) :
    (setSize r (.fin n) other).canvasWidth = .fin n ∧
    (setSize r other (.fin n)).canvasHeight = .fin n := by
  have hm : mathFloor (mul (.fin n) r.pixelRatio) = .fin n := by
    rw [hr]
    simp only [mul, mul_one, roundD_natCast n h, mathFloor, Int.floor_natCast, Int.cast_natCast]
  exact ⟨hm, hm⟩

/-! ## The claims -/

/-- C1 (as amended): one call of `animate` leaves `rotation.x = mouseY * 0.5` and
`rotation.y = elapsedTime * 0.05 + mouseX * 0.5`, both evaluated in double
precision; neither depends on the rotation before the call; a second frame with
the same pointer state changes nothing but `rotation.y`, which it sets to the same
expression at its own clock reading; and when both values are finite their
difference is `(T2 - T1) * 0.05` up to rounding: it is off by at most half a
spacing of doubles at each of the two products and the two sums. -/
theorem animate_rotation_law (s : State) (t1 t2 : JSNum) :
    (animate s t1).1.rotation.x = mul s.mouseY lit_0_5 ∧
    (animate s t1).1.rotation.y = add (mul t1 lit_0_05) (mul s.mouseX lit_0_5) ∧
    (∀ r : Euler,
      (animate { s with rotation := r } t1).1.rotation.x = (animate s t1).1.rotation.x ∧
      (animate { s with rotation := r } t1).1.rotation.y = (animate s t1).1.rotation.y) ∧
    (animate (animate s t1).1 t2).1 =
      { (animate s t1).1 with
        rotation := { (animate s t1).1.rotation with
          y := add (mul t2 lit_0_05) (mul s.mouseX lit_0_5) } } ∧
    (∀ c q1 q2 y1 y2 : ℚ, lit_0_05 = .fin c → t1 = .fin q1 → t2 = .fin q2 →
      (animate s t1).1.rotation.y = .fin y1 →
      (animate (animate s t1).1 t2).1.rotation.y = .fin y2 →
      ∃ a1 a2 m : ℚ, mul t1 lit_0_05 = .fin a1 ∧ mul t2 lit_0_05 = .fin a2 ∧
        mul s.mouseX lit_0_5 = .fin m ∧
        |(y2 - y1) - (q2 - q1) * c| ≤
          (quantum binary64 (q1 * c) + quantum binary64 (a1 + m)
            + quantum binary64 (q2 * c) + quantum binary64 (a2 + m)) / 2) := by
  refine ⟨rfl, rfl, fun _ => ⟨rfl, rfl⟩, rfl, ?_⟩
  intro c q1 q2 y1 y2 hc h1 h2 hy1 hy2
  have hc2 : c = 3602879701896397 / 2 ^ 56 := by
    rw [lit_0_05_eq] at hc
    exact (JSNum.fin.inj hc).symm
  subst h1 h2 hc2
  obtain ⟨a1, m1, ha1, hm1, e1⟩ := frame_error q1 s.mouseX y1 hy1
  obtain ⟨a2, m2, ha2, hm2, e2⟩ := frame_error q2 s.mouseX y2 hy2
  have hm : m2 = m1 := JSNum.fin.inj (hm2.symm.trans hm1)
  subst hm
  refine ⟨a1, a2, m2, ha1, ha2, hm1, ?_⟩
  rw [abs_le] at e1 e2 ⊢
  constructor <;> linarith [e1.1, e1.2, e2.1, e2.2]

/-- Witness of C1: the sample page with the pointer at rest and the frames at the
clock readings `1` and `3`. -/
theorem animate_rotation_law_witness :
    ∃ a1 a2 m : ℚ, mul (.fin 1) lit_0_05 = .fin a1 ∧ mul (.fin 3) lit_0_05 = .fin a2 ∧
      mul sampleState.mouseX lit_0_5 = .fin m ∧
      |(10808639105689192 / 2 ^ 56 - 3602879701896397 / 2 ^ 56 : ℚ)
          - (3 - 1) * (3602879701896397 / 2 ^ 56)| ≤
        (quantum binary64 (1 * (3602879701896397 / 2 ^ 56)) + quantum binary64 (a1 + m)
          + quantum binary64 (3 * (3602879701896397 / 2 ^ 56))
          + quantum binary64 (a2 + m)) / 2 :=
  (animate_rotation_law sampleState (.fin 1) (.fin 3)).2.2.2.2
    (3602879701896397 / 2 ^ 56) 1 3 (3602879701896397 / 2 ^ 56)
    (10808639105689192 / 2 ^ 56) lit_0_05_eq rfl rfl (by decide!) (by decide!)

/-- C1 fails as stated: with the pointer at rest, the frames at the clock readings
`1` and `3` leave `rotation.y` at `0.05` and `0.15000000000000002`; their
difference is not `(3 - 1) * 0.05`, neither in double arithmetic nor exactly. -/
theorem animate_difference_counterexample :
    IsDouble (.fin 1) ∧ IsDouble (.fin 3) ∧
    (animate sampleState (.fin 1)).1.rotation.y = .fin (3602879701896397 / 2 ^ 56) ∧
    (animate (animate sampleState (.fin 1)).1 (.fin 3)).1.rotation.y
      = .fin (10808639105689192 / 2 ^ 56) ∧
    sub (animate (animate sampleState (.fin 1)).1 (.fin 3)).1.rotation.y
        (animate sampleState (.fin 1)).1.rotation.y
      ≠ mul (sub (.fin 3) (.fin 1)) lit_0_05 ∧
    (10808639105689192 / 2 ^ 56 - 3602879701896397 / 2 ^ 56 : ℚ)
      ≠ (3 - 1) * (3602879701896397 / 2 ^ 56) ∧
    (10808639105689192 / 2 ^ 56 - 3602879701896397 / 2 ^ 56 : ℚ) ≠ (3 - 1) * (1 / 20) := by
  decide!

/-- C2: in a viewport of positive size the `mousemove` listener sets the pointer
state to `(clientX / W - 0.5, clientY / H - 0.5)`, the quotient being the rounded
exact quotient; for client coordinates inside the viewport both scalars are
finite and lie in `[-0.5, 0.5]`. -/
theorem mousemove_pointer_state (s : State) (w h x y : ℚ) (hw : 0 < w) (hh : 0 < h) :
    (mousemove s (.fin w) (.fin h) (.fin x) (.fin y)).1.mouseX
      = sub (div (.fin x) (.fin w)) lit_0_5 ∧
    (mousemove s (.fin w) (.fin h) (.fin x) (.fin y)).1.mouseY
      = sub (div (.fin y) (.fin h)) lit_0_5 ∧
    div (.fin x) (.fin w) = roundD (x / w) ∧
    div (.fin y) (.fin h) = roundD (y / h) ∧
    (0 ≤ x → x ≤ w → 0 ≤ y → y ≤ h →
      InRange (-1 / 2) (1 / 2) (mousemove s (.fin w) (.fin h) (.fin x) (.fin y)).1.mouseX ∧
      InRange (-1 / 2) (1 / 2) (mousemove s (.fin w) (.fin h) (.fin x) (.fin y)).1.mouseY) :=
  ⟨rfl, rfl, by simp [div, hw.ne'], by simp [div, hh.ne'],
    fun hx0 hx1 hy0 hy1 => ⟨pointer_inRange x w hw hx0 hx1, pointer_inRange y h hh hy0 hy1⟩⟩

/-- Witness of C2: the centre of the left edge of a 1920 x 1080 viewport. -/
theorem mousemove_pointer_state_witness :
    (mousemove sampleState (.fin 1920) (.fin 1080) (.fin 0) (.fin 540)).1.mouseX
      = sub (div (.fin 0) (.fin 1920)) lit_0_5 ∧
    InRange (-1 / 2) (1 / 2)
      (mousemove sampleState (.fin 1920) (.fin 1080) (.fin 0) (.fin 540)).1.mouseX ∧
    InRange (-1 / 2) (1 / 2)
      (mousemove sampleState (.fin 1920) (.fin 1080) (.fin 0) (.fin 540)).1.mouseY :=
  have h := mousemove_pointer_state sampleState 1920 1080 0 540 (by norm_num) (by norm_num)
  ⟨h.1, h.2.2.2.2 (by norm_num) (by norm_num) (by norm_num) (by norm_num)⟩

/-- C3 (as amended): for random samples drawn from `[0, 1)`, every coordinate the
generation loop stores is `(u - 0.5) * 15` for its sample `u`, computed in double
precision and rounded to single precision by the `Float32Array`; it is finite and
lies in the closed interval `[-7.5, 7.5]`. -/
theorem generate_coordinates (random : ℕ → JSNum) (sample : ℕ → ℚ) (n : ℕ)
    (hr : ∀ k, random k = .fin (sample k)) (h0 : ∀ k, 0 ≤ sample k)
    (h1 : ∀ k, sample k < 1) :
    ∀ i, i < n →
      (generate random n)[i]? = some (fround (mul (sub (random i) lit_0_5) lit_15)) ∧
      InRange (-15 / 2) (15 / 2) (fround (mul (sub (random i) lit_0_5) lit_15)) := by
  intro i hi
  refine ⟨generate_getElem? random n i hi, ?_⟩
  rw [hr i]
  exact coordinate_inRange (sample i) (h0 i) (h1 i)

/-- Witness of C3: the sample page, where every random sample is `0.25`. -/
theorem generate_coordinates_witness :
    (generate sampleEnv.random 2100)[7]?
        = some (fround (mul (sub (sampleEnv.random 7) lit_0_5) lit_15)) ∧
      InRange (-15 / 2) (15 / 2) (fround (mul (sub (sampleEnv.random 7) lit_0_5) lit_15)) :=
  generate_coordinates sampleEnv.random (fun _ => 1 / 4) 2100 (fun _ => rfl)
    (fun _ => by norm_num) (fun _ => by norm_num) 7 (by norm_num)

/-- C3 fails as stated: the sample `u = 1 - 2^-30` is a double of `[0, 1)`, the
double `(u - 0.5) * 15` is `7.5 - 15 * 2^-30`, and the buffer of the page started
with such samples holds `7.5`, which is neither that value nor inside
`[-7.5, 7.5)`. -/
theorem generate_coordinates_counterexample :
    IsDouble (.fin (1 - 1 / 2 ^ 30)) ∧
    InHalfOpen 0 1 (.fin (1 - 1 / 2 ^ 30)) ∧
    mul (sub (.fin (1 - 1 / 2 ^ 30)) lit_0_5) lit_15 = .fin (15 / 2 - 15 / 2 ^ 30) ∧
    (setup edgeEnv).posArray[0]? = some (.fin (15 / 2)) ∧
    (setup edgeEnv).posArray[0]? ≠ some (mul (sub (edgeEnv.random 0) lit_0_5) lit_15) ∧
    ¬ InHalfOpen (-15 / 2) (15 / 2) (.fin (15 / 2)) := by
  have hc : coordinate (edgeEnv.random 0) = .fin (15 / 2) := by decide!
  have hs : (setup edgeEnv).posArray = generate edgeEnv.random (particlesCount * 3) := by
    simp only [setup]
  have hpos : 0 < particlesCount * 3 := by decide
  rw [hs, generate_getElem? edgeEnv.random (particlesCount * 3) 0 hpos, hc]
  refine ⟨by decide!, by decide!, by decide!, rfl, by decide!, by decide!⟩

theorem setup_posArray (env : Env) :
    (setup env).posArray = generate env.random (particlesCount * 3) := by
  simp only [setup]

theorem init_of_container (env : Env) (h : env.container = true) :
    (init env).1 = some (animate (setup env) env.elapsed0).1 := by
  simp [init, h]

/-- C4: without the mount element the `DOMContentLoaded` callback returns at once:
it leaves no state behind and performs no action at all, so it constructs no
scene, camera or renderer, appends nothing, registers no listener and requests no
animation frame. -/
theorem init_without_container (env : Env) (h : env.container = false) :
    (init env).1 = none ∧ (init env).2 = [] ∧
    Action.newScene ∉ (init env).2 ∧
    (∀ a b c d, Action.newPerspectiveCamera a b c d ∉ (init env).2) ∧
    (∀ a b, Action.newWebGLRenderer a b ∉ (init env).2) ∧
    Action.appendChild ∉ (init env).2 ∧
    (∀ type, Action.addEventListener type ∉ (init env).2) ∧
    Action.requestAnimationFrame ∉ (init env).2 := by
  have h2 : (init env).2 = [] := by simp [init, h]
  refine ⟨by simp [init, h], h2, ?_, ?_, ?_, ?_, ?_, ?_⟩ <;> simp [h2]

/-- Witness of C4: the sample page without its mount element. -/
theorem init_without_container_witness :
    (init bareEnv).1 = none ∧ (init bareEnv).2 = [] ∧
    Action.newScene ∉ (init bareEnv).2 ∧
    (∀ a b c d, Action.newPerspectiveCamera a b c d ∉ (init bareEnv).2) ∧
    (∀ a b, Action.newWebGLRenderer a b ∉ (init bareEnv).2) ∧
    Action.appendChild ∉ (init bareEnv).2 ∧
    (∀ type, Action.addEventListener type ∉ (init bareEnv).2) ∧
    Action.requestAnimationFrame ∉ (init bareEnv).2 :=
  init_without_container bareEnv rfl

/-- C5 (as amended): the material colour is the value of `--accent-primary` with
the white space around it removed when that is not empty, and the default
`#3b82f6` otherwise.  So it is the value itself when the value is not empty and
neither starts nor ends with white space (as `#ff0000`), and the default when the
value is empty, unset, or white space only. -/
theorem init_material_color (env : Env) (s : State) (h : (init env).1 = some s) :
    (∃ pre post : List Char,
      env.accentPrimary.data = pre ++ (jsTrim env.accentPrimary).data ++ post ∧
      (∀ c ∈ pre, isWhiteSpace c = true) ∧ (∀ c ∈ post, isWhiteSpace c = true) ∧
      (∀ c, (jsTrim env.accentPrimary).data.head? = some c → isWhiteSpace c = false) ∧
      (∀ c, (jsTrim env.accentPrimary).data.getLast? = some c → isWhiteSpace c = false)) ∧
    (jsTrim env.accentPrimary ≠ "" → s.material.color = jsTrim env.accentPrimary) ∧
    (jsTrim env.accentPrimary = "" → s.material.color = "#3b82f6") ∧
    (env.accentPrimary ≠ "" →
      (∀ c, env.accentPrimary.data.head? = some c → isWhiteSpace c = false) →
      (∀ c, env.accentPrimary.data.getLast? = some c → isWhiteSpace c = false) →
      s.material.color = env.accentPrimary) ∧
    ((∀ c ∈ env.accentPrimary.data, isWhiteSpace c = true) → s.material.color = "#3b82f6") ∧
    (env.accentPrimary = "#ff0000" → s.material.color = "#ff0000") ∧
    (env.accentPrimary = "" → s.material.color = "#3b82f6") := by
  have hc : env.container = true := by
    by_contra hc
    simp [init, hc] at h
  rw [init_of_container env hc, Option.some.injEq] at h
  have hcol : s.material.color = accentColor env.accentPrimary := by
    rw [← h]; rfl
  rw [hcol]
  refine ⟨jsTrimList_spec env.accentPrimary.data, accentColor_of_trim_ne _,
    accentColor_of_trim_eq _, ?_, ?_, ?_, ?_⟩
  · intro hne h1 h2
    have ht : jsTrim env.accentPrimary = env.accentPrimary := by
      unfold jsTrim
      rw [jsTrimList_of_clean _ h1 h2]
    rw [accentColor_of_trim_ne _ (by rw [ht]; exact hne), ht]
  · intro hall
    apply accentColor_of_trim_eq
    unfold jsTrim
    rw [jsTrimList_of_all _ hall]
  · intro hv
    rw [hv]
    decide
  · intro hv
    rw [hv]
    decide

/-- Witness of C5: the sample page, whose style sheet gives `#ff0000`. -/
theorem init_material_color_witness :
    (animate (setup sampleEnv) sampleEnv.elapsed0).1.material.color = "#ff0000" :=
  (init_material_color sampleEnv (animate (setup sampleEnv) sampleEnv.elapsed0).1
    (init_of_container sampleEnv rfl)).2.2.2.2.2.1 rfl

/-- C5 fails as stated: the defined value `" #ff0000"` (the text after the colon of
the declaration, as older engines return it) gives the colour `#ff0000`, which is
not that value; and the defined value `" "` gives the default. -/
theorem init_material_color_counterexample :
    (init spacedEnv).1.map (fun s => s.material.color) = some "#ff0000" ∧
    spacedEnv.accentPrimary = " #ff0000" ∧
    (init spacedEnv).1.map (fun s => s.material.color) ≠ some spacedEnv.accentPrimary ∧
    accentColor " " = "#3b82f6" := by
  have h : (init spacedEnv).1.map (fun s => s.material.color) = some "#ff0000" := by
    rw [init_of_container spacedEnv rfl]
    decide
  rw [h]
  exact ⟨rfl, rfl, by decide, by decide⟩

theorem step_posArray (s : State) (e : Event) : (step s e).1.posArray = s.posArray := by
  cases e <;> rfl

theorem step_itemSize (s : State) (e : Event) : (step s e).1.itemSize = s.itemSize := by
  cases e <;> rfl

theorem step_pixelRatio (s : State) (e : Event) :
    (step s e).1.renderer.pixelRatio = s.renderer.pixelRatio := by
  cases e <;> rfl

theorem run_invariant (s : State) (evs : List Event) :
    (run s evs).posArray = s.posArray ∧ (run s evs).itemSize = s.itemSize ∧
      (run s evs).renderer.pixelRatio = s.renderer.pixelRatio := by
  induction evs generalizing s with
  | nil => exact ⟨rfl, rfl, rfl⟩
  | cons e evs ih =>
    obtain ⟨h1, h2, h3⟩ := ih (step s e).1
    exact ⟨h1.trans (step_posArray s e), h2.trans (step_itemSize s e),
      h3.trans (step_pixelRatio s e)⟩

/-- C6 (as amended): for a new viewport `(W, H)` with `H > 0` the `resize` listener
leaves the camera aspect at `W / H` (the rounded exact quotient, also in the
projection), the logical size of the renderer at `(W, H)` and its drawing surface
at `Math.floor(W * r)` by `Math.floor(H * r)`, `r` being the pixel ratio of the
renderer, whatever the state was before; for a whole number of pixels and `r = 1`
the drawing surface is `(W, H)`. -/
theorem resize_aspect_and_size (s : State) (w h : ℚ) (hh : 0 < h) :
    (resize s (.fin w) (.fin h)).1.camera.aspect = div (.fin w) (.fin h) ∧
    div (.fin w) (.fin h) = roundD (w / h) ∧
    (resize s (.fin w) (.fin h)).1.camera.projection.aspect = div (.fin w) (.fin h) ∧
    (resize s (.fin w) (.fin h)).1.renderer.width = .fin w ∧
    (resize s (.fin w) (.fin h)).1.renderer.height = .fin h ∧
    (resize s (.fin w) (.fin h)).1.renderer.canvasWidth
      = mathFloor (mul (.fin w) s.renderer.pixelRatio) ∧
    (resize s (.fin w) (.fin h)).1.renderer.canvasHeight
      = mathFloor (mul (.fin h) s.renderer.pixelRatio) ∧
    (∀ W H : ℕ, w = W → h = H → W < 2 ^ 53 → H < 2 ^ 53 →
      s.renderer.pixelRatio = .fin 1 →
      (resize s (.fin w) (.fin h)).1.renderer.canvasWidth = .fin w ∧
      (resize s (.fin w) (.fin h)).1.renderer.canvasHeight = .fin h) := by
  refine ⟨rfl, by simp [div, hh.ne'], rfl, rfl, rfl, rfl, rfl, ?_⟩
  intro W H hW hH hW53 hH53 hr
  subst hW hH
  exact ⟨canvas_of_ratio_one s.renderer W (.fin H) hW53 hr |>.1,
    canvas_of_ratio_one (setSize s.renderer (.fin W) (.fin H)) H (.fin W) hH53 hr |>.2⟩

/-- Witness of C6: the sample page, of pixel ratio 1, resized to 800 x 600. -/
theorem resize_aspect_and_size_witness :
    (resize sampleState (.fin 800) (.fin 600)).1.camera.aspect
      = div (.fin 800) (.fin 600) ∧
    div (.fin 800) (.fin 600) = roundD (800 / 600) ∧
    (resize sampleState (.fin 800) (.fin 600)).1.renderer.width = .fin 800 ∧
    (resize sampleState (.fin 800) (.fin 600)).1.renderer.height = .fin 600 ∧
    (resize sampleState (.fin 800) (.fin 600)).1.renderer.canvasWidth = .fin 800 ∧
    (resize sampleState (.fin 800) (.fin 600)).1.renderer.canvasHeight = .fin 600 :=
  have h := resize_aspect_and_size sampleState 800 600 (by norm_num)
  have hc := h.2.2.2.2.2.2.2 800 600 (by norm_num) (by norm_num) (by norm_num)
    (by norm_num) (by decide!)
  ⟨h.1, h.2.1, h.2.2.2.1, h.2.2.2.2.1, hc.1, hc.2⟩

/-- C6 fails as stated: on a display of device pixel ratio 2 the resize to
1366 x 768 leaves the logical size at 1366 x 768 and the drawing surface at
2732 x 1536, which is not `(W, H)`. -/
theorem resize_drawing_surface_counterexample :
    (setup retinaEnv).renderer.pixelRatio = .fin 2 ∧
    (resize (setup retinaEnv) (.fin 1366) (.fin 768)).1.renderer.width = .fin 1366 ∧
    (resize (setup retinaEnv) (.fin 1366) (.fin 768)).1.renderer.height = .fin 768 ∧
    (resize (setup retinaEnv) (.fin 1366) (.fin 768)).1.renderer.canvasWidth
      = .fin 2732 ∧
    (resize (setup retinaEnv) (.fin 1366) (.fin 768)).1.renderer.canvasHeight
      = .fin 1536 ∧
    (resize (setup retinaEnv) (.fin 1366) (.fin 768)).1.renderer.canvasWidth
      ≠ .fin 1366 ∧
    (resize (setup retinaEnv) (.fin 1366) (.fin 768)).1.renderer.canvasHeight
      ≠ .fin 768 := by
  decide!

/-- C7: with the mount element present, initialisation leaves a position buffer of
exactly 2100 = 700 * 3 coordinates with item size 3, hence 700 points, and every
coordinate is the one the generation loop wrote at its index: coordinate `c` of
point `p` is the value computed from random sample `3 * p + c`. -/
theorem init_point_cloud (env : Env) (h : env.container = true) :
    ∃ s : State, (init env).1 = some s ∧
      s.posArray.length = 2100 ∧ s.posArray.length = particlesCount * 3 ∧
      s.itemSize = 3 ∧ pointCount s = 700 ∧
      (∀ i, i < 2100 → s.posArray[i]? = some (coordinate (env.random i))) ∧
      (∀ p c, p < 700 → c < 3 →
        s.posArray[3 * p + c]? = some (coordinate (env.random (3 * p + c)))) := by
  have hpos : (animate (setup env) env.elapsed0).1.posArray
      = generate env.random (particlesCount * 3) :=
    (step_posArray (setup env) (.frame env.elapsed0)).trans (setup_posArray env)
  have hlen : (animate (setup env) env.elapsed0).1.posArray.length = 2100 := by
    rw [hpos, generate_length]; rfl
  have hget : ∀ i, i < 2100 → (animate (setup env) env.elapsed0).1.posArray[i]?
      = some (coordinate (env.random i)) := by
    intro i hi
    rw [hpos]
    exact generate_getElem? env.random (particlesCount * 3) i hi
  refine ⟨_, init_of_container env h, hlen, hlen, rfl, ?_, hget, ?_⟩
  · have hi : (animate (setup env) env.elapsed0).1.itemSize = 3 := rfl
    unfold pointCount
    rw [hlen, hi]
  · intro p c hp hc
    exact hget _ (by omega)

/-- Witness of C7: the sample page. -/
theorem init_point_cloud_witness :
    ∃ s : State, (init sampleEnv).1 = some s ∧
      s.posArray.length = 2100 ∧ s.posArray.length = particlesCount * 3 ∧
      s.itemSize = 3 ∧ pointCount s = 700 ∧
      (∀ i, i < 2100 → s.posArray[i]? = some (coordinate (sampleEnv.random i))) ∧
      (∀ p c, p < 700 → c < 3 →
        s.posArray[3 * p + c]? = some (coordinate (sampleEnv.random (3 * p + c)))) :=
  init_point_cloud sampleEnv rfl

/-- C8: no step after generation touches the positions: for every state and every
frame, pointer move or resize, the position buffer has the same length and the same
value at every index afterwards, and a frame changes nothing but the rotation of the
cloud; so in every state reached from initialisation the buffer is the generated
one, with its 700 points. -/
theorem step_preserves_positions (s : State) (e : Event) :
    (step s e).1.posArray.length = s.posArray.length ∧
    (∀ i : ℕ, (step s e).1.posArray[i]? = s.posArray[i]?) ∧
    (∀ t, (step s (.frame t)).1 = { s with rotation := (step s (.frame t)).1.rotation }) ∧
    (∀ env s0 evs, (init env).1 = some s0 →
      (run s0 evs).posArray = generate env.random (particlesCount * 3) ∧
      (step (run s0 evs) e).1.posArray = generate env.random (particlesCount * 3) ∧
      pointCount (step (run s0 evs) e).1 = 700) := by
  have hstep := step_posArray s e
  refine ⟨?_, ?_, fun _ => rfl, ?_⟩
  · rw [hstep]
  · intro i
    rw [hstep]
  intro env s0 evs h
  have hc : env.container = true := by
    by_contra hc
    simp [init, hc] at h
  rw [init_of_container env hc, Option.some.injEq] at h
  have h0 : s0.posArray = generate env.random (particlesCount * 3) := by
    rw [← h]
    exact (step_posArray (setup env) (.frame env.elapsed0)).trans (setup_posArray env)
  have hi : s0.itemSize = 3 := by rw [← h]; rfl
  obtain ⟨h1, h2, _⟩ := run_invariant s0 evs
  refine ⟨h1.trans h0, (step_posArray _ e).trans (h1.trans h0), ?_⟩
  unfold pointCount
  rw [step_posArray, step_itemSize, h1, h2, h0, hi, generate_length]
  rfl

/-- Witness of C8: the sample page after a pointer move, a frame and a resize. -/
theorem step_preserves_positions_witness :
    (run (animate (setup sampleEnv) sampleEnv.elapsed0).1
        [.mousemove (.fin 1920) (.fin 1080) (.fin 0) (.fin 540), .frame (.fin 1),
          .resize (.fin 800) (.fin 600)]).posArray
      = generate sampleEnv.random (particlesCount * 3) :=
  ((step_preserves_positions sampleState (.frame (.fin 2))).2.2.2 sampleEnv
    (animate (setup sampleEnv) sampleEnv.elapsed0).1
    [.mousemove (.fin 1920) (.fin 1080) (.fin 0) (.fin 540), .frame (.fin 1),
      .resize (.fin 800) (.fin 600)] (init_of_container sampleEnv rfl)).1

/-- C9: the `resize` listener writes the camera aspect, the projection computed
from it and the renderer size (logical size and drawing surface), and nothing
else: pixel ratio, pointer state,
rotation, material, camera position and the other camera parameters, and the
position buffer are as before; so the pixel ratio stays the one given at creation
through every sequence of events. -/
theorem resize_frame (s : State) (w h : JSNum) :
    (resize s w h).1 =
      { s with
        camera := { s.camera with
          aspect := div w h
          projection := ⟨s.camera.fov, div w h, s.camera.near, s.camera.far⟩ }
        renderer := { s.renderer with
          width := w
          height := h
          canvasWidth := mathFloor (mul w s.renderer.pixelRatio)
          canvasHeight := mathFloor (mul h s.renderer.pixelRatio) } } ∧
    (resize s w h).1.renderer.pixelRatio = s.renderer.pixelRatio ∧
    (resize s w h).1.mouseX = s.mouseX ∧
    (resize s w h).1.mouseY = s.mouseY ∧
    (resize s w h).1.rotation = s.rotation ∧
    (resize s w h).1.material = s.material ∧
    (resize s w h).1.camera.positionZ = s.camera.positionZ ∧
    (resize s w h).1.posArray = s.posArray ∧
    (∀ env evs, (run (setup env) evs).renderer.pixelRatio = env.devicePixelRatio) :=
  ⟨rfl, rfl, rfl, rfl, rfl, rfl, rfl, rfl, fun env evs => (run_invariant (setup env) evs).2.2⟩

/-- C10 (as amended): one call of `animate` issues the request for the next frame
first, before its rotation writes and its draw; it issues exactly one request and
exactly one draw, and the draw comes last. -/
theorem animate_order (s : State) (t : JSNum) :
    ∃ rest : List Action, (animate s t).2 = .requestAnimationFrame :: rest ∧
      Action.requestAnimationFrame ∉ rest ∧
      Action.setRotationX (animate s t).1.rotation.x ∈ rest ∧
      Action.setRotationY (animate s t).1.rotation.y ∈ rest ∧
      rest.getLast? = some .render ∧
      rest.count .render = 1 := by
  refine ⟨_, rfl, ?_, ?_, ?_, rfl, ?_⟩ <;> simp [animate]

/-- C10 fails as stated: in the first frame of the sample page the request for the
next frame is the first action, the rotation writes follow, and the draw is the
fifth action, so the request is not issued after the draw. -/
theorem animate_order_counterexample :
    (animate sampleState (.fin 0)).2.indexOf .requestAnimationFrame = 0 ∧
    (animate sampleState (.fin 0)).2.indexOf (.setRotationX (.fin 0)) = 2 ∧
    (animate sampleState (.fin 0)).2.indexOf .render = 4 ∧
    ¬ ((animate sampleState (.fin 0)).2.indexOf .render
        < (animate sampleState (.fin 0)).2.indexOf .requestAnimationFrame) := by
  decide!

end ThreeBg
